import Mathlib

/-!
Verification of the audio pipeline of Gemini Voice Studio.

The development shallowly embeds the repository's audio core:

* the WAV export logic of `handleDownload` in the main application file
  (header layout, float-to-int16 sample conversion, interleaving);
* the playback state machine formed by `playAudio` / `stopPlayback` and the
  `onended` completion callback, modelled as a labelled transition system
  whose trace records the order of `stop` / `disconnect` / `connect` /
  `start` calls on source nodes;
* the scheduling decision of the visualizer's `draw` loop in
  `AudioVisualizer.tsx`;
* the PCM decoder, which is referenced (`decodeAudioData` in
  `utils/audioUtils`) but whose source file is not part of the repository
  snapshot; it is modelled from the specification.

JavaScript numbers are modelled as rationals, JS `x|0` as truncation toward
zero followed by 32-bit wrap-around, and `DataView` writes as little-endian
byte lists.
-/

namespace GeminiVoiceStudio

/-! ### Little-endian byte serialization (DataView model) -/

/-- bytes written by `view.setUint16(pos, n, true)` (little-endian, mod 2^16). -/
def u16le (n : ℕ) : List ℕ := [n % 256, n / 256 % 256]

/-- bytes written by `view.setUint32(pos, n, true)` (little-endian, mod 2^32). -/
def u32le (n : ℕ) : List ℕ := [n % 256, n / 256 % 256, n / 65536 % 256, n / 16777216 % 256]

/-- bytes written by `view.setInt16(pos, z, true)`: two's complement, little-endian. -/
def i16le (z : ℤ) : List ℕ :=
  [(z % 65536).toNat % 256, (z % 65536).toNat / 256]

/-- structural list indexing with a default, modelling JS `l[i]` (with the
convention that out-of-range access yields the default). -/
def nthD {α : Type} (l : List α) (i : ℕ) (d : α) : α :=
  match i, l with
  | _, [] => d
  | 0, a :: _ => a
  | i + 1, _ :: t => nthD t i d

/-- read an unsigned little-endian 16-bit integer at byte offset `off`. -/
def readU16 (l : List ℕ) (off : ℕ) : ℕ :=
  match l.drop off with
  | b0 :: b1 :: _ => b0 + 256 * b1
  | _ => 0

/-- read an unsigned little-endian 32-bit integer at byte offset `off`. -/
def readU32 (l : List ℕ) (off : ℕ) : ℕ :=
  match l.drop off with
  | b0 :: b1 :: b2 :: b3 :: _ => b0 + 256 * b1 + 65536 * b2 + 16777216 * b3
  | _ => 0

/-- read a signed (two's complement) little-endian 16-bit integer at `off`. -/
def readI16 (l : List ℕ) (off : ℕ) : ℤ :=
  if readU16 l off < 32768 then (readU16 l off : ℤ) else (readU16 l off : ℤ) - 65536

/-! ### Data model (types.ts and the Web Audio objects used by the app) -/

/-- the `VoiceName` enum of types.ts. -/
inductive VoiceName where
  | Puck
  | Charon
  | Kore
  | Fenrir
  | Zephyr
deriving DecidableEq, Repr

/-- an `AudioBuffer` as used by the app: per-channel float sample data plus
the `numberOfChannels`, `length` (frames per channel) and `sampleRate`
attributes read by the WAV export code. -/
structure AudioBuffer where
  numberOfChannels : ℕ
  length : ℕ
  sampleRate : ℕ
  channelData : List (List ℚ)
deriving DecidableEq, Repr

/-- well-formedness: the channel list matches `numberOfChannels` and every
channel holds `length` samples (the invariant the Web Audio API guarantees). -/
def AudioBuffer.WF (b : AudioBuffer) : Prop :=
  b.channelData.length = b.numberOfChannels ∧ ∀ ch ∈ b.channelData, ch.length = b.length

/-- the `GeneratedAudio` record of types.ts (`audioBuffer` is null when
decoding failed). -/
structure GeneratedAudio where
  id : String
  text : String
  voice : VoiceName
  timestamp : ℕ
  audioBuffer : Option AudioBuffer
  duration : ℚ
deriving DecidableEq, Repr

/-! ### WAV encoder (the export logic of `handleDownload`) -/

/-- JS 32-bit wrap-around, the final step of `x|0` (ToInt32). -/
def toInt32 (z : ℤ) : ℤ := (z + 2147483648) % 4294967296 - 2147483648

/-- truncation of a rational toward zero, the first step of JS `x|0`. -/
def truncQ (q : ℚ) : ℤ := if q < 0 then ⌈q⌉ else ⌊q⌋

/-- JS `q|0`: truncate toward zero, then wrap into signed 32-bit range. -/
def bitwiseOrZero (q : ℚ) : ℤ := toInt32 (truncQ q)

/-- `Math.max(-1, Math.min(1, s))`, the clamping step of the sample loop. -/
def clampSample (s : ℚ) : ℚ := max (-1) (min 1 s)

/-- the float-to-int16 conversion of the sample loop:
`sample = (0.5 + sample < 0 ? sample * 32768 : sample * 32767)|0` applied
after clamping.  Note that in JS the condition parses as
`(0.5 + sample) < 0`. -/
def scale16 (s : ℚ) : ℤ :=
  let sample := clampSample s
  bitwiseOrZero (if 1 / 2 + sample < 0 then sample * 32768 else sample * 32767)

/-- the 44 header bytes written by the `setUint32` / `setUint16` calls of
`handleDownload` before the sample loop. -/
def wavHeader (b : AudioBuffer) : List ℕ :=
  let numOfChan := b.numberOfChannels
  let len := b.length * numOfChan * 2 + 44
  u32le 0x46464952 ++ u32le (len - 8) ++ u32le 0x45564157 ++
  u32le 0x20746d66 ++ u32le 16 ++ u16le 1 ++ u16le numOfChan ++
  u32le b.sampleRate ++ u32le (b.sampleRate * 2 * numOfChan) ++
  u16le (numOfChan * 2) ++ u16le 16 ++
  u32le 0x61746164 ++ u32le (len - 40 - 4)

/-- the interleaved 16-bit sample bytes written by the `while` loop of
`handleDownload`: for each frame `pos`, for each channel `i`, the two bytes
of `scale16 channels[i][pos]`. -/
def wavData (b : AudioBuffer) : List ℕ :=
  (List.range b.length).flatMap fun pos =>
    (List.range b.numberOfChannels).flatMap fun i =>
      i16le (scale16 (nthD (nthD b.channelData i []) pos 0))

/-- the complete WAV byte sequence produced by `handleDownload` for a
non-null buffer. -/
def encodeWav (b : AudioBuffer) : List ℕ := wavHeader b ++ wavData b

/-- `handleDownload`: returns no bytes when `item.audioBuffer` is null,
otherwise the encoded WAV file content. -/
def handleDownload (item : GeneratedAudio) : Option (List ℕ) :=
  match item.audioBuffer with
  | none => none
  | some buffer => some (encodeWav buffer)

/-! ### PCM decoder (modelled from the spec) -/

/-- failure mode of the PCM decoder. -/
inductive DecodeError where
  | MalformedAudioData
deriving DecidableEq, Repr

/-- interpretation of two bytes as a little-endian signed 16-bit sample. -/
def i16FromBytes (lo hi : ℕ) : ℤ :=
  if lo + 256 * hi < 32768 then ((lo + 256 * hi : ℕ) : ℤ)
  else ((lo + 256 * hi : ℕ) : ℤ) - 65536

/-- consecutive byte pairs as signed 16-bit integers (little-endian). -/
def bytesToInts : List ℕ → List ℤ
  | lo :: hi :: rest => i16FromBytes lo hi :: bytesToInts rest
  | _ => []

/-- Modelled from the spec: the buffer produced by a successful decode.
Each little-endian signed 16-bit sample is converted to float by dividing
by 32768 and the samples are de-interleaved into per-channel sequences in
channel order. -/
def decodeOk (bytes : List ℕ) (sampleRate channelCount : ℕ) : AudioBuffer :=
  { numberOfChannels := channelCount
    length := bytes.length / (channelCount * 2)
    sampleRate := sampleRate
    channelData := (List.range channelCount).map fun c =>
      (List.range (bytes.length / (channelCount * 2))).map fun pos =>
        ((nthD (bytesToInts bytes) (pos * channelCount + c) 0 : ℤ) : ℚ) / 32768 }

/-- Modelled from the spec: the PcmDecoder contract of `decodeAudioData`
(`utils/audioUtils`, a file the repository snapshot does not contain).  Per
the spec, the input byte length must be divisible by `channelCount * 2` or
the decoder fails with `MalformedAudioData`; otherwise it succeeds with the
de-interleaved normalized buffer. -/
def decodeAudioData (bytes : List ℕ) (sampleRate channelCount : ℕ) :
    Except DecodeError AudioBuffer :=
  if bytes.length % (channelCount * 2) = 0 then
    Except.ok (decodeOk bytes sampleRate channelCount)
  else Except.error DecodeError.MalformedAudioData

/-! ### Playback state machine (`playAudio`, `stopPlayback`, `onended`)

Source nodes are identified by the order of their creation.  The trace
records the audio-node calls in the order the code performs them, so that
ordering properties (disconnect-before-connect) are statements about trace
positions. -/

/-- one audio-node call performed by the playback code. -/
inductive Ev where
  | stopCall (src : ℕ)
  | disconnectCall (src : ℕ)
  | connectCall (src : ℕ)
  | startCall (src : ℕ)
  | endedFire (src : ℕ)
deriving DecidableEq, Repr

/-- the source node an event refers to. -/
def evSrc : Ev → ℕ
  | .stopCall n => n
  | .disconnectCall n => n
  | .connectCall n => n
  | .startCall n => n
  | .endedFire n => n

/-- the relevant React state of the app plus the audio-node call trace:
`sourceNodeRef`, `currentAudioId`, `isPlaying`, and a counter providing
fresh source-node identities. -/
structure AppState where
  nextSrc : ℕ
  sourceNodeRef : Option ℕ
  currentAudioId : Option String
  isPlaying : Bool
  trace : List Ev
deriving DecidableEq, Repr

/-- the initial state: no source, nothing playing. -/
def initState : AppState := ⟨0, none, none, false, []⟩

/-- `stopPlayback`: if a source node is held, call `stop()` and
`disconnect()` on it and clear the reference; always clear `isPlaying` and
`currentAudioId`. -/
def stopPlayback (s : AppState) : AppState :=
  match s.sourceNodeRef with
  | some src =>
      { s with sourceNodeRef := none, isPlaying := false, currentAudioId := none,
               trace := s.trace ++ [Ev.stopCall src, Ev.disconnectCall src] }
  | none => { s with isPlaying := false, currentAudioId := none }

/-- `playAudio item`: toggle-stop when the item is the currently playing
one; otherwise stop any existing playback, and (only when the item's buffer
is non-null) connect and start a fresh source and mark the item playing. -/
def playAudio (item : GeneratedAudio) (s : AppState) : AppState :=
  if s.currentAudioId = some item.id ∧ s.isPlaying = true then stopPlayback s
  else
    let s1 := stopPlayback s
    match item.audioBuffer with
    | none => s1
    | some _ =>
        let src := s1.nextSrc
        { s1 with nextSrc := src + 1, sourceNodeRef := some src,
                  currentAudioId := some item.id, isPlaying := true,
                  trace := s1.trace ++ [Ev.connectCall src, Ev.startCall src] }

/-- effect of a `startCall` / `stopCall` / `endedFire` event on the set of
sources that are started and not yet stopped or ended. -/
def liveStep (acc : List ℕ) : Ev → List ℕ
  | .startCall src => acc ++ [src]
  | .stopCall src => acc.erase src
  | .endedFire src => acc.erase src
  | _ => acc

/-- the sources whose playback is in progress (`Playing` sessions) after a
call trace. -/
def live (tr : List Ev) : List ℕ := tr.foldl liveStep []

/-- natural end-of-stream of source `src`: the `onended` handler registered
by `playAudio` runs, clearing `isPlaying` and `currentAudioId` (and nothing
else: the code does not clear `sourceNodeRef` there).  A source only ends
naturally while its playback is in progress. -/
def onEnded (src : ℕ) (s : AppState) : AppState :=
  if src ∈ live s.trace then
    { s with isPlaying := false, currentAudioId := none,
             trace := s.trace ++ [Ev.endedFire src] }
  else s

/-- the operations a caller can interleave. -/
inductive Op where
  | play (item : GeneratedAudio)
  | stop
  | ended (src : ℕ)

/-- one operation applied to the state. -/
def step (s : AppState) : Op → AppState
  | .play item => playAudio item s
  | .stop => stopPlayback s
  | .ended src => onEnded src s

/-- run a finite sequence of operations from the initial state. -/
def exec (ops : List Op) : AppState := ops.foldl step initState

/-! ### Visualizer tick loop (`AudioVisualizer.tsx`) -/

/-- the `AudioContext.state` values distinguished by the `draw` callback. -/
inductive CtxState where
  | running
  | suspended
  | closed
deriving DecidableEq, Repr

/-- whether one execution of the `draw` callback schedules another frame
via `requestAnimationFrame`: it does when `isPlaying` holds, and otherwise
it still does unless the audio context is `closed` or `suspended`. -/
def drawSchedulesNext (isPlaying : Bool) (ctxState : CtxState) : Bool :=
  if isPlaying then true
  else if ctxState = CtxState.closed ∨ ctxState = CtxState.suspended then false
  else true

/-! ### Concrete items used in scenario statements -/

/-- a one-channel, one-frame silent buffer. -/
def bufMono : AudioBuffer := ⟨1, 1, 24000, [[0]]⟩

/-- generation record A with a decoded buffer. -/
def itemA : GeneratedAudio := ⟨"idA", "hello", VoiceName.Kore, 0, some bufMono, 1⟩

/-- generation record B with a decoded buffer. -/
def itemB : GeneratedAudio := ⟨"idB", "world", VoiceName.Puck, 0, some bufMono, 1⟩

/-- a generation record whose decode failed (null buffer). -/
def itemNull : GeneratedAudio := ⟨"idN", "oops", VoiceName.Zephyr, 0, none, 0⟩

/-! ### Arithmetic lemmas about the sample conversion -/

lemma toInt32_eq_self {z : ℤ} (h1 : -2147483648 ≤ z) (h2 : z < 2147483648) :
    toInt32 z = z := by
  unfold toInt32
  omega

lemma neg_one_le_clampSample (s : ℚ) : -1 ≤ clampSample s := le_max_left _ _

lemma clampSample_le_one (s : ℚ) : clampSample s ≤ 1 :=
  max_le (by norm_num) (min_le_left _ _)

lemma clampSample_eq_self {s : ℚ} (h1 : -1 ≤ s) (h2 : s ≤ 1) : clampSample s = s := by
  unfold clampSample
  rw [min_eq_right h2, max_eq_right h1]

lemma truncQ_intCast (v : ℤ) : truncQ (v : ℚ) = v := by
  unfold truncQ
  split
  · exact Int.ceil_intCast v
  · exact Int.floor_intCast v

lemma truncQ_lb {q : ℚ} {z : ℤ} (h : (z : ℚ) ≤ q) : z ≤ truncQ q := by
  unfold truncQ
  split
  · calc z = ⌈(z : ℚ)⌉ := (Int.ceil_intCast z).symm
      _ ≤ ⌈q⌉ := Int.ceil_le_ceil h
  · calc z = ⌊(z : ℚ)⌋ := (Int.floor_intCast z).symm
      _ ≤ ⌊q⌋ := Int.floor_le_floor h

lemma truncQ_ub {q : ℚ} {z : ℤ} (h : q ≤ (z : ℚ)) : truncQ q ≤ z := by
  unfold truncQ
  split
  · calc ⌈q⌉ ≤ ⌈(z : ℚ)⌉ := Int.ceil_le_ceil h
      _ = z := Int.ceil_intCast z
  · rename_i hq
    push_neg at hq
    calc ⌊q⌋ ≤ ⌊(z : ℚ)⌋ := Int.floor_le_floor h
      _ = z := Int.floor_intCast z

/-- the scaled-and-clamped value fed to `|0` always lies in signed 16-bit
range, so the 32-bit wrap of `|0` never changes it. -/
lemma scale16_eq_truncQ (s : ℚ) :
    scale16 s =
      truncQ (if 1 / 2 + clampSample s < 0 then clampSample s * 32768
              else clampSample s * 32767) ∧
    -32768 ≤ scale16 s ∧ scale16 s ≤ 32767 := by
  have hc1 : -1 ≤ clampSample s := neg_one_le_clampSample s
  have hc2 : clampSample s ≤ 1 := clampSample_le_one s
  have hb : -32768 ≤ truncQ (if 1 / 2 + clampSample s < 0 then clampSample s * 32768
        else clampSample s * 32767) ∧
      truncQ (if 1 / 2 + clampSample s < 0 then clampSample s * 32768
        else clampSample s * 32767) ≤ 32767 := by
    split
    · rename_i h
      constructor
      · exact truncQ_lb (by push_cast; nlinarith)
      · exact truncQ_ub (by push_cast; nlinarith)
    · rename_i h
      push_neg at h
      constructor
      · exact truncQ_lb (by push_cast; nlinarith)
      · exact truncQ_ub (by push_cast; nlinarith)
  refine ⟨?_, ?_, ?_⟩
  · show bitwiseOrZero _ = _
    unfold bitwiseOrZero
    exact toInt32_eq_self (by omega) (by omega)
  · show -32768 ≤ bitwiseOrZero _
    unfold bitwiseOrZero
    rw [toInt32_eq_self (by omega) (by omega)]
    exact hb.1
  · show bitwiseOrZero _ ≤ 32767
    unfold bitwiseOrZero
    rw [toInt32_eq_self (by omega) (by omega)]
    exact hb.2

lemma scale16_lb (s : ℚ) : -32768 ≤ scale16 s := (scale16_eq_truncQ s).2.1

lemma scale16_ub (s : ℚ) : scale16 s ≤ 32767 := (scale16_eq_truncQ s).2.2

/-! ### Byte-level lemmas -/

lemma i16FromBytes_i16le {z : ℤ} (h1 : -32768 ≤ z) (h2 : z ≤ 32767) :
    i16FromBytes ((z % 65536).toNat % 256) ((z % 65536).toNat / 256) = z := by
  unfold i16FromBytes
  split <;> omega

lemma bytesToInts_i16le_append (z : ℤ) (rest : List ℕ) :
    bytesToInts (i16le z ++ rest) =
      i16FromBytes ((z % 65536).toNat % 256) ((z % 65536).toNat / 256) :: bytesToInts rest := rfl

lemma readU16_of_drop {l : List ℕ} {off : ℕ} {z : ℤ} (h : l.drop off = i16le z) :
    readU16 l off = (z % 65536).toNat % 256 + 256 * ((z % 65536).toNat / 256) := by
  unfold readU16
  rw [h]
  rfl

lemma readI16_of_drop {l : List ℕ} {off : ℕ} {z : ℤ} (h : l.drop off = i16le z)
    (h1 : -32768 ≤ z) (h2 : z ≤ 32767) : readI16 l off = z := by
  unfold readI16
  rw [readU16_of_drop h]
  split <;> push_cast <;> omega

/-! ### Structural indexing lemmas -/

lemma nthD_nil {α : Type} (i : ℕ) (d : α) : nthD [] i d = d := by
  cases i <;> rfl

lemma nthD_zero {α : Type} (a : α) (t : List α) (d : α) : nthD (a :: t) 0 d = a := rfl

lemma nthD_succ {α : Type} (a : α) (t : List α) (i : ℕ) (d : α) :
    nthD (a :: t) (i + 1) d = nthD t i d := rfl

lemma nthD_add_drop {α : Type} :
    ∀ (m : ℕ) (l : List α) (i : ℕ) (d : α), nthD l (m + i) d = nthD (l.drop m) i d
  | 0, l, i, d => by rw [List.drop_zero, Nat.zero_add]
  | m + 1, [], i, d => by rw [List.drop_nil, nthD_nil, nthD_nil]
  | m + 1, a :: t, i, d => by
      rw [List.drop_succ_cons, show m + 1 + i = (m + i) + 1 by omega, nthD_succ]
      exact nthD_add_drop m t i d

lemma nthD_range_map_take {α : Type} (d : α) :
    ∀ (l : List α) (k : ℕ), k ≤ l.length →
      (List.range k).map (fun i => nthD l i d) = l.take k
  | l, 0, _ => by simp
  | [], k + 1, h => by simp at h
  | a :: t, k + 1, h => by
      rw [List.range_succ_eq_map, List.map_cons, nthD_zero, List.map_map]
      have h2 : (List.range k).map ((fun i => nthD (a :: t) i d) ∘ Nat.succ) =
          (List.range k).map (fun i => nthD t i d) := by
        apply List.map_congr_left
        intro i _
        rfl
      rw [h2, nthD_range_map_take d t k (by simpa using h)]
      rfl

lemma nthD_range_map {α : Type} {k i : ℕ} (f : ℕ → α) (d : α) (h : i < k) :
    nthD ((List.range k).map f) i d = f i := by
  induction k generalizing f i with
  | zero => omega
  | succ k ih =>
      rw [List.range_succ_eq_map, List.map_cons, List.map_map]
      cases i with
      | zero => rfl
      | succ i =>
          rw [nthD_succ]
          have h2 : (List.range k).map (f ∘ Nat.succ) =
              (List.range k).map (fun j => f (j + 1)) := by
            apply List.map_congr_left
            intro j _
            rfl
          rw [h2, ih (fun j => f (j + 1)) (by omega)]

/-- a list of length `n * ch` is recovered by reading it back frame by
frame, channel by channel, at the interleaved positions. -/
lemma flatMap_interleave_nthD (ch : ℕ) :
    ∀ (n : ℕ) (l : List ℤ), l.length = n * ch →
      (List.range n).flatMap
        (fun pos => (List.range ch).map fun c => nthD l (pos * ch + c) 0) = l
  | 0, l, h => by
      rw [List.range_zero, List.flatMap_nil]
      symm
      exact List.eq_nil_of_length_eq_zero (by omega)
  | n + 1, l, h => by
      have hlen : l.length = n * ch + ch := by rw [h, add_mul, one_mul]
      rw [List.range_succ_eq_map, List.flatMap_cons, List.flatMap_map]
      have hfirst : (List.range ch).map (fun c => nthD l (0 * ch + c) 0) = l.take ch := by
        have h2 : (List.range ch).map (fun c => nthD l (0 * ch + c) 0) =
            (List.range ch).map (fun c => nthD l c 0) := by
          apply List.map_congr_left
          intro c _
          rw [zero_mul, zero_add]
        rw [h2]
        exact nthD_range_map_take 0 l ch (by omega)
      have hrest : ((List.range n).flatMap fun pos =>
          (List.range ch).map fun c => nthD l (Nat.succ pos * ch + c) 0) = l.drop ch := by
        have h3 : (fun pos => (List.range ch).map fun c => nthD l (Nat.succ pos * ch + c) 0) =
            (fun pos => (List.range ch).map fun c => nthD (l.drop ch) (pos * ch + c) 0) := by
          apply funext
          intro pos
          apply List.map_congr_left
          intro c _
          rw [Nat.succ_mul, show pos * ch + ch + c = ch + (pos * ch + c) from by omega]
          exact nthD_add_drop ch l (pos * ch + c) 0
        rw [h3]
        exact flatMap_interleave_nthD ch n (l.drop ch) (by rw [List.length_drop]; omega)
      rw [hfirst, hrest, List.take_append_drop]

/-! ### Lemmas about `bytesToInts` -/

lemma bytesToInts_length : ∀ l : List ℕ, (bytesToInts l).length = l.length / 2
  | [] => by simp [bytesToInts]
  | [_] => by simp [bytesToInts]
  | a :: b :: rest => by
      have hc : bytesToInts (a :: b :: rest) = i16FromBytes a b :: bytesToInts rest := rfl
      rw [hc, List.length_cons, bytesToInts_length rest]
      simp only [List.length_cons]
      omega

lemma bytesToInts_range : ∀ l : List ℕ, (∀ b ∈ l, b < 256) →
    ∀ z ∈ bytesToInts l, -32768 ≤ z ∧ z ≤ 32767
  | [], _ => by intro z hz; simp [bytesToInts] at hz
  | [_], _ => by intro z hz; simp [bytesToInts] at hz
  | lo :: hi :: rest, h => by
      intro z hz
      have hc : bytesToInts (lo :: hi :: rest) = i16FromBytes lo hi :: bytesToInts rest := rfl
      rw [hc] at hz
      rcases List.mem_cons.mp hz with h1 | h1
      · subst h1
        have hlo : lo < 256 := h lo (by simp)
        have hhi : hi < 256 := h hi (by simp)
        unfold i16FromBytes
        split <;> omega
      · exact bytesToInts_range rest (fun b hb => h b (by simp [hb])) z h1

lemma bytesToInts_flatMap_i16le :
    ∀ zs : List ℤ, (∀ z ∈ zs, -32768 ≤ z ∧ z ≤ 32767) →
      bytesToInts (zs.flatMap i16le) = zs
  | [], _ => rfl
  | z :: rest, h => by
      have hsplit : bytesToInts (i16le z ++ rest.flatMap i16le) =
          i16FromBytes ((z % 65536).toNat % 256) ((z % 65536).toNat / 256) ::
            bytesToInts (rest.flatMap i16le) := rfl
      have hz := h z (by simp)
      rw [List.flatMap_cons, hsplit, i16FromBytes_i16le hz.1 hz.2,
        bytesToInts_flatMap_i16le rest (fun w hw => h w (by simp [hw]))]

/-! ### Per-sample round-trip lemma -/

/-- decoding a stored 16-bit value to `v / 32768` and re-encoding it with
the `scale16` conversion moves the stored value by at most one step. -/
lemma scale16_roundtrip {v : ℤ} (h1 : -32768 ≤ v) (h2 : v ≤ 32767) :
    (scale16 ((v : ℚ) / 32768) - v).natAbs ≤ 1 := by
  have h1q : (-32768 : ℚ) ≤ (v : ℚ) := by exact_mod_cast h1
  have h2q : (v : ℚ) ≤ 32767 := by exact_mod_cast h2
  have hq1 : -1 ≤ (v : ℚ) / 32768 := by
    rw [le_div_iff₀ (by norm_num : (0 : ℚ) < 32768)]
    linarith
  have hq2 : (v : ℚ) / 32768 ≤ 1 := by
    rw [div_le_iff₀ (by norm_num : (0 : ℚ) < 32768)]
    linarith
  have hclamp : clampSample ((v : ℚ) / 32768) = (v : ℚ) / 32768 :=
    clampSample_eq_self hq1 hq2
  have hkey := (scale16_eq_truncQ ((v : ℚ) / 32768)).1
  rw [hclamp] at hkey
  by_cases hneg : (1 : ℚ) / 2 + (v : ℚ) / 32768 < 0
  · -- v < -16384: the value re-encodes exactly
    rw [if_pos hneg] at hkey
    rw [div_mul_cancel₀ _ (by norm_num : (32768 : ℚ) ≠ 0)] at hkey
    rw [hkey, truncQ_intCast]
    simp
  · -- v ≥ -16384: scaling by 32767 moves the value by at most one
    rw [if_neg hneg] at hkey
    push_neg at hneg
    have hv : -16384 ≤ v := by
      have h3 : -(1 / 2 : ℚ) ≤ (v : ℚ) / 32768 := by linarith
      rw [le_div_iff₀ (by norm_num : (0 : ℚ) < 32768)] at h3
      norm_num at h3
      exact_mod_cast h3
    rw [div_mul_eq_mul_div] at hkey
    have hvq : (-16384 : ℚ) ≤ (v : ℚ) := by exact_mod_cast hv
    rcases lt_trichotomy v 0 with hv0 | hv0 | hv0
    · -- -16384 ≤ v ≤ -1: the result is v + 1
      have hv0q : (v : ℚ) < 0 := by exact_mod_cast hv0
      have hqneg : (v : ℚ) * 32767 / 32768 < 0 :=
        div_neg_of_neg_of_pos (mul_neg_of_neg_of_pos hv0q (by norm_num)) (by norm_num)
      rw [hkey, truncQ, if_pos hqneg]
      have hceil : ⌈(v : ℚ) * 32767 / 32768⌉ = v + 1 := by
        rw [Int.ceil_eq_iff]
        constructor
        · rw [lt_div_iff₀ (by norm_num : (0 : ℚ) < 32768)]
          push_cast
          linarith
        · rw [div_le_iff₀ (by norm_num : (0 : ℚ) < 32768)]
          push_cast
          linarith
      rw [hceil]
      omega
    · -- v = 0 re-encodes exactly
      subst hv0
      rw [hkey]
      norm_num [truncQ]
    · -- 1 ≤ v ≤ 32767: the result is v - 1
      have hv0q : (0 : ℚ) < (v : ℚ) := by exact_mod_cast hv0
      have hqpos : ¬ ((v : ℚ) * 32767 / 32768 < 0) := by
        push_neg
        apply div_nonneg _ (by norm_num)
        nlinarith
      rw [hkey, truncQ, if_neg hqpos]
      have hfloor : ⌊(v : ℚ) * 32767 / 32768⌋ = v - 1 := by
        rw [Int.floor_eq_iff]
        constructor
        · rw [le_div_iff₀ (by norm_num : (0 : ℚ) < 32768)]
          push_cast
          linarith
        · rw [div_lt_iff₀ (by norm_num : (0 : ℚ) < 32768)]
          push_cast
          linarith
      rw [hfloor]
      omega

/-! ### WAV container lemmas -/

lemma wavHeader_length (b : AudioBuffer) : (wavHeader b).length = 44 := rfl

lemma wavData_length (b : AudioBuffer) :
    (wavData b).length = b.length * b.numberOfChannels * 2 := by
  unfold wavData
  rw [List.length_flatMap]
  have h1 : List.map (List.length ∘ fun pos => (List.range b.numberOfChannels).flatMap
        fun i => i16le (scale16 (nthD (nthD b.channelData i []) pos 0)))
        (List.range b.length) =
      List.map (fun _ => b.numberOfChannels * 2) (List.range b.length) := by
    apply List.map_congr_left
    intro pos _
    show ((List.range b.numberOfChannels).flatMap
      fun i => i16le (scale16 (nthD (nthD b.channelData i []) pos 0))).length = _
    rw [List.length_flatMap]
    have h2 : List.map (List.length ∘ fun i => i16le (scale16 (nthD (nthD b.channelData i []) pos 0)))
          (List.range b.numberOfChannels) =
        List.map (fun _ => 2) (List.range b.numberOfChannels) := by
      apply List.map_congr_left
      intro i _
      rfl
    rw [h2, List.map_const', List.sum_replicate, smul_eq_mul, List.length_range]
  rw [h1, List.map_const', List.sum_replicate, smul_eq_mul, List.length_range]
  ring

lemma encodeWav_length (b : AudioBuffer) :
    (encodeWav b).length = 44 + b.length * b.numberOfChannels * 2 := by
  unfold encodeWav
  rw [List.length_append, wavHeader_length, wavData_length]

lemma readU32_encodeWav_4 (b : AudioBuffer) : readU32 (encodeWav b) 4 =
    (b.length * b.numberOfChannels * 2 + 44 - 8) % 256 +
    256 * ((b.length * b.numberOfChannels * 2 + 44 - 8) / 256 % 256) +
    65536 * ((b.length * b.numberOfChannels * 2 + 44 - 8) / 65536 % 256) +
    16777216 * ((b.length * b.numberOfChannels * 2 + 44 - 8) / 16777216 % 256) := rfl

lemma readU32_encodeWav_40 (b : AudioBuffer) : readU32 (encodeWav b) 40 =
    (b.length * b.numberOfChannels * 2 + 44 - 40 - 4) % 256 +
    256 * ((b.length * b.numberOfChannels * 2 + 44 - 40 - 4) / 256 % 256) +
    65536 * ((b.length * b.numberOfChannels * 2 + 44 - 40 - 4) / 65536 % 256) +
    16777216 * ((b.length * b.numberOfChannels * 2 + 44 - 40 - 4) / 16777216 % 256) := rfl

lemma readU32_encodeWav_28 (b : AudioBuffer) : readU32 (encodeWav b) 28 =
    (b.sampleRate * 2 * b.numberOfChannels) % 256 +
    256 * ((b.sampleRate * 2 * b.numberOfChannels) / 256 % 256) +
    65536 * ((b.sampleRate * 2 * b.numberOfChannels) / 65536 % 256) +
    16777216 * ((b.sampleRate * 2 * b.numberOfChannels) / 16777216 % 256) := rfl

lemma readU16_encodeWav_32 (b : AudioBuffer) : readU16 (encodeWav b) 32 =
    (b.numberOfChannels * 2) % 256 + 256 * (b.numberOfChannels * 2 / 256 % 256) := rfl

lemma readU16_encodeWav_34 (b : AudioBuffer) : readU16 (encodeWav b) 34 = 16 := rfl

/-! ### Concrete evaluations of the sample conversion -/

lemma scale16_zero : scale16 0 = 0 := by
  have hc : clampSample 0 = 0 := clampSample_eq_self (by norm_num) (by norm_num)
  show bitwiseOrZero (if 1 / 2 + clampSample 0 < 0 then clampSample 0 * 32768
    else clampSample 0 * 32767) = 0
  rw [hc, if_neg (by norm_num : ¬ ((1 : ℚ) / 2 + 0 < 0)), zero_mul, bitwiseOrZero, truncQ,
    if_neg (lt_irrefl 0), Int.floor_zero]
  decide

lemma scale16_one : scale16 1 = 32767 := by
  have hc : clampSample 1 = 1 := clampSample_eq_self (by norm_num) le_rfl
  show bitwiseOrZero (if 1 / 2 + clampSample 1 < 0 then clampSample 1 * 32768
    else clampSample 1 * 32767) = 32767
  rw [hc, if_neg (by norm_num : ¬ ((1 : ℚ) / 2 + 1 < 0)), one_mul, bitwiseOrZero]
  have ht : truncQ (32767 : ℚ) = 32767 := by
    rw [show (32767 : ℚ) = ((32767 : ℤ) : ℚ) from by norm_num, truncQ_intCast]
  rw [ht]
  exact toInt32_eq_self (by omega) (by omega)

lemma scale16_negOne : scale16 (-1) = -32768 := by
  have hc : clampSample (-1) = -1 := clampSample_eq_self le_rfl (by norm_num)
  show bitwiseOrZero (if 1 / 2 + clampSample (-1) < 0 then clampSample (-1) * 32768
    else clampSample (-1) * 32767) = -32768
  rw [hc, if_pos (by norm_num : (1 : ℚ) / 2 + -1 < 0), bitwiseOrZero]
  have ht : truncQ ((-1 : ℚ) * 32768) = -32768 := by
    rw [show ((-1 : ℚ) * 32768) = ((-32768 : ℤ) : ℚ) from by norm_num, truncQ_intCast]
  rw [ht]
  exact toInt32_eq_self (by omega) (by omega)

lemma scale16_negQuarter : scale16 (-(1 / 4)) = -8191 := by
  have hc : clampSample (-(1 / 4)) = -(1 / 4) :=
    clampSample_eq_self (by norm_num) (by norm_num)
  show bitwiseOrZero (if 1 / 2 + clampSample (-(1 / 4)) < 0 then clampSample (-(1 / 4)) * 32768
    else clampSample (-(1 / 4)) * 32767) = -8191
  rw [hc, if_neg (by norm_num : ¬ ((1 : ℚ) / 2 + -(1 / 4) < 0)), bitwiseOrZero]
  have ht : truncQ ((-(1 / 4) : ℚ) * 32767) = -8191 := by
    rw [truncQ, if_pos (by norm_num : (-(1 / 4) : ℚ) * 32767 < 0),
      show ((-(1 / 4) : ℚ) * 32767) = -(32767 / 4 : ℚ) from by norm_num, Int.ceil_neg]
    norm_num
  rw [ht]
  exact toInt32_eq_self (by omega) (by omega)

/-! ### Playback state machine lemmas -/

lemma live_append (tr l : List Ev) : live (tr ++ l) = l.foldl liveStep (live tr) :=
  List.foldl_append liveStep [] tr l

lemma live_stop_disconnect (tr : List Ev) (a : ℕ) :
    live (tr ++ [Ev.stopCall a, Ev.disconnectCall a]) = (live tr).erase a := by
  rw [live_append]
  rfl

lemma live_connect_start (tr : List Ev) (c : ℕ) :
    live (tr ++ [Ev.connectCall c, Ev.startCall c]) = live tr ++ [c] := by
  rw [live_append]
  rfl

lemma live_endedFire (tr : List Ev) (a : ℕ) :
    live (tr ++ [Ev.endedFire a]) = (live tr).erase a := by
  rw [live_append]
  rfl

lemma prefix_concat_cases {p tr : List Ev} {e : Ev} (h : p <+: tr ++ [e]) :
    p <+: tr ∨ p = tr ++ [e] := by
  induction tr generalizing p with
  | nil =>
      obtain ⟨t, ht⟩ := h
      cases p with
      | nil => left; exact ⟨[], rfl⟩
      | cons x xs =>
          rw [List.cons_append] at ht
          injection ht with h1 h2
          subst h1
          rcases List.append_eq_nil.mp h2 with ⟨hxs, _⟩
          subst hxs
          right
          rfl
  | cons a tr ih =>
      obtain ⟨t, ht⟩ := h
      cases p with
      | nil => left; exact ⟨a :: tr, rfl⟩
      | cons x xs =>
          rw [List.cons_append, List.cons_append] at ht
          injection ht with h1 h2
          subst h1
          rcases ih ⟨t, h2⟩ with hc | hc
          · left
            obtain ⟨u, hu⟩ := hc
            exact ⟨u, by rw [List.cons_append, hu]⟩
          · right
            rw [List.cons_append, hc]

lemma length_le_one_cases {l : List ℕ} (h : l.length ≤ 1) : l = [] ∨ ∃ x, l = [x] := by
  cases l with
  | nil => left; rfl
  | cons x xs =>
      cases xs with
      | nil => right; exact ⟨x, rfl⟩
      | cons y ys => simp at h

lemma prefOK_concat {tr : List Ev} {e : Ev}
    (h : ∀ p, p <+: tr → (live p).length ≤ 1)
    (h2 : (live (tr ++ [e])).length ≤ 1) :
    ∀ p, p <+: tr ++ [e] → (live p).length ≤ 1 := by
  intro p hp
  rcases prefix_concat_cases hp with hc | hc
  · exact h p hc
  · rw [hc]
    exact h2

/-- the reachability invariant of the playback machine. -/
structure Inv (s : AppState) : Prop where
  prefOK : ∀ p, p <+: s.trace → (live p).length ≤ 1
  liveSub : ∀ x ∈ live s.trace, s.sourceNodeRef = some x
  fresh : ∀ e ∈ s.trace, evSrc e < s.nextSrc
  refFresh : ∀ x, s.sourceNodeRef = some x → x < s.nextSrc
  idle : s.isPlaying = false → s.currentAudioId = none

lemma live_len_le_one {s : AppState} (hs : Inv s) : (live s.trace).length ≤ 1 :=
  hs.prefOK s.trace ⟨[], List.append_nil _⟩

lemma inv_init : Inv initState := by
  refine ⟨?_, ?_, ?_, ?_, ?_⟩
  · intro p hp
    have hp0 : p = [] := by simpa [initState] using hp
    subst hp0
    simp [live]
  · intro x hx
    simp [initState, live] at hx
  · intro e he
    simp [initState] at he
  · intro x hx
    simp [initState] at hx
  · intro _
    rfl

lemma stopPlayback_isPlaying (s : AppState) : (stopPlayback s).isPlaying = false := by
  cases h : s.sourceNodeRef <;> simp [stopPlayback, h]

lemma stopPlayback_currentAudioId (s : AppState) :
    (stopPlayback s).currentAudioId = none := by
  cases h : s.sourceNodeRef <;> simp [stopPlayback, h]

lemma stopPlayback_sourceNodeRef (s : AppState) :
    (stopPlayback s).sourceNodeRef = none := by
  cases h : s.sourceNodeRef <;> simp [stopPlayback, h]

lemma stopPlayback_nextSrc (s : AppState) : (stopPlayback s).nextSrc = s.nextSrc := by
  cases h : s.sourceNodeRef <;> simp [stopPlayback, h]

lemma inv_stopPlayback {s : AppState} (hs : Inv s) :
    Inv (stopPlayback s) ∧ live (stopPlayback s).trace = [] := by
  cases h : s.sourceNodeRef with
  | none =>
      have hlive : live s.trace = [] := by
        rcases length_le_one_cases (live_len_le_one hs) with h0 | ⟨x, hx⟩
        · exact h0
        · exfalso
          have hsub := hs.liveSub x (by rw [hx]; exact List.mem_singleton_self x)
          rw [h] at hsub
          cases hsub
      have htr : (stopPlayback s).trace = s.trace := by simp [stopPlayback, h]
      refine ⟨⟨?_, ?_, ?_, ?_, ?_⟩, ?_⟩
      · rw [htr]; exact hs.prefOK
      · rw [htr, hlive]; intro x hx; cases hx
      · rw [htr]
        intro e he
        have := hs.fresh e he
        simpa [stopPlayback, h] using this
      · intro x hx
        rw [stopPlayback_sourceNodeRef] at hx
        cases hx
      · intro _
        exact stopPlayback_currentAudioId s
      · rw [htr]
        exact hlive
  | some a =>
      have htr : (stopPlayback s).trace = s.trace ++ [Ev.stopCall a, Ev.disconnectCall a] := by
        simp [stopPlayback, h]
      have hlive0 : live (stopPlayback s).trace = [] := by
        rw [htr, live_stop_disconnect]
        rcases length_le_one_cases (live_len_le_one hs) with h0 | ⟨x, hx⟩
        · rw [h0]; rfl
        · have hsub := hs.liveSub x (by rw [hx]; exact List.mem_singleton_self x)
          rw [h] at hsub
          injection hsub with hxa
          rw [hx, hxa, List.erase_cons_head]
      refine ⟨⟨?_, ?_, ?_, ?_, ?_⟩, hlive0⟩
      · rw [htr, show s.trace ++ [Ev.stopCall a, Ev.disconnectCall a] =
          (s.trace ++ [Ev.stopCall a]) ++ [Ev.disconnectCall a] from by
            rw [List.append_assoc]; rfl]
        apply prefOK_concat
        · apply prefOK_concat hs.prefOK
          rw [live_append]
          show ((live s.trace).erase a).length ≤ 1
          calc ((live s.trace).erase a).length ≤ (live s.trace).length :=
                List.length_erase_le _ _
            _ ≤ 1 := live_len_le_one hs
        · rw [List.append_assoc]
          show (live (s.trace ++ [Ev.stopCall a, Ev.disconnectCall a])).length ≤ 1
          rw [live_stop_disconnect]
          calc ((live s.trace).erase a).length ≤ (live s.trace).length :=
                List.length_erase_le _ _
            _ ≤ 1 := live_len_le_one hs
      · rw [hlive0]
        intro x hx
        cases hx
      · rw [htr]
        intro e he
        rw [stopPlayback_nextSrc]
        rcases List.mem_append.mp he with h1 | h1
        · exact hs.fresh e h1
        · have ha : a < s.nextSrc := hs.refFresh a h
          rcases List.mem_cons.mp h1 with h2 | h2
          · subst h2; exact ha
          · rcases List.mem_cons.mp h2 with h3 | h3
            · subst h3; exact ha
            · cases h3
      · intro x hx
        rw [stopPlayback_sourceNodeRef] at hx
        cases hx
      · intro _
        exact stopPlayback_currentAudioId s

/-! ### Characterizations of `playAudio` and `onEnded` -/

lemma playAudio_of_active {s : AppState} {item : GeneratedAudio}
    (h : s.currentAudioId = some item.id ∧ s.isPlaying = true) :
    playAudio item s = stopPlayback s := by
  unfold playAudio
  rw [if_pos h]

lemma playAudio_of_noBuffer {s : AppState} {item : GeneratedAudio}
    (h : item.audioBuffer = none)
    (hcond : ¬ (s.currentAudioId = some item.id ∧ s.isPlaying = true)) :
    playAudio item s = stopPlayback s := by
  unfold playAudio
  rw [if_neg hcond, h]

lemma playAudio_of_start {s : AppState} {item : GeneratedAudio} {b : AudioBuffer}
    (hcond : ¬ (s.currentAudioId = some item.id ∧ s.isPlaying = true))
    (hb : item.audioBuffer = some b) :
    playAudio item s =
      { nextSrc := (stopPlayback s).nextSrc + 1,
        sourceNodeRef := some (stopPlayback s).nextSrc,
        currentAudioId := some item.id,
        isPlaying := true,
        trace := (stopPlayback s).trace ++
          [Ev.connectCall (stopPlayback s).nextSrc, Ev.startCall (stopPlayback s).nextSrc] } := by
  unfold playAudio
  rw [if_neg hcond, hb]

lemma onEnded_of_live {s : AppState} {src : ℕ} (h : src ∈ live s.trace) :
    onEnded src s =
      { s with
        isPlaying := false,
        currentAudioId := none,
        trace := s.trace ++ [Ev.endedFire src] } := by
  unfold onEnded
  rw [if_pos h]

lemma onEnded_of_not_live {s : AppState} {src : ℕ} (h : src ∉ live s.trace) :
    onEnded src s = s := by
  unfold onEnded
  rw [if_neg h]

lemma inv_playAudio {s : AppState} (hs : Inv s) (item : GeneratedAudio) :
    Inv (playAudio item s) := by
  by_cases hcond : s.currentAudioId = some item.id ∧ s.isPlaying = true
  · rw [playAudio_of_active hcond]
    exact (inv_stopPlayback hs).1
  · cases hb : item.audioBuffer with
    | none =>
        rw [playAudio_of_noBuffer hb hcond]
        exact (inv_stopPlayback hs).1
    | some b =>
        rw [playAudio_of_start hcond hb]
        obtain ⟨hinv1, hlive1⟩ := inv_stopPlayback hs
        refine ⟨?_, ?_, ?_, ?_, ?_⟩
        · show ∀ p, p <+: (stopPlayback s).trace ++
            [Ev.connectCall (stopPlayback s).nextSrc, Ev.startCall (stopPlayback s).nextSrc] →
            (live p).length ≤ 1
          rw [show (stopPlayback s).trace ++
              [Ev.connectCall (stopPlayback s).nextSrc, Ev.startCall (stopPlayback s).nextSrc] =
              ((stopPlayback s).trace ++ [Ev.connectCall (stopPlayback s).nextSrc]) ++
                [Ev.startCall (stopPlayback s).nextSrc] from by rw [List.append_assoc]; rfl]
          apply prefOK_concat
          · apply prefOK_concat hinv1.prefOK
            rw [live_append]
            show (live (stopPlayback s).trace).length ≤ 1
            rw [hlive1]
            simp
          · rw [List.append_assoc]
            show (live ((stopPlayback s).trace ++
              [Ev.connectCall (stopPlayback s).nextSrc,
               Ev.startCall (stopPlayback s).nextSrc])).length ≤ 1
            rw [live_connect_start, hlive1]
            simp
        · intro x hx
          show some (stopPlayback s).nextSrc = some x
          rw [live_connect_start, hlive1] at hx
          rcases List.mem_cons.mp hx with h1 | h1
          · rw [h1]
          · cases h1
        · intro e he
          show evSrc e < (stopPlayback s).nextSrc + 1
          rcases List.mem_append.mp he with h1 | h1
          · have := hinv1.fresh e h1
            omega
          · rcases List.mem_cons.mp h1 with h2 | h2
            · subst h2
              show (stopPlayback s).nextSrc < (stopPlayback s).nextSrc + 1
              omega
            · rcases List.mem_cons.mp h2 with h3 | h3
              · subst h3
                show (stopPlayback s).nextSrc < (stopPlayback s).nextSrc + 1
                omega
              · cases h3
        · intro x hx
          injection hx with hx
          show x < (stopPlayback s).nextSrc + 1
          omega
        · intro hfalse
          simp at hfalse

lemma inv_onEnded {s : AppState} (hs : Inv s) (src : ℕ) : Inv (onEnded src s) := by
  by_cases h : src ∈ live s.trace
  · rw [onEnded_of_live h]
    have href : s.sourceNodeRef = some src := hs.liveSub src h
    have hlive' : live (s.trace ++ [Ev.endedFire src]) = [] := by
      rw [live_endedFire]
      rcases length_le_one_cases (live_len_le_one hs) with h0 | ⟨x, hx⟩
      · rw [h0]
        rfl
      · have hx2 := hs.liveSub x (by rw [hx]; exact List.mem_singleton_self x)
        rw [href] at hx2
        injection hx2 with hxx
        rw [hx, ← hxx, List.erase_cons_head]
    refine ⟨?_, ?_, ?_, ?_, ?_⟩
    · show ∀ p, p <+: s.trace ++ [Ev.endedFire src] → (live p).length ≤ 1
      apply prefOK_concat hs.prefOK
      rw [hlive']
      simp
    · intro x hx
      have hx' : x ∈ live (s.trace ++ [Ev.endedFire src]) := hx
      rw [hlive'] at hx'
      cases hx'
    · intro e he
      show evSrc e < s.nextSrc
      rcases List.mem_append.mp he with h1 | h1
      · exact hs.fresh e h1
      · rcases List.mem_cons.mp h1 with h2 | h2
        · subst h2
          exact hs.refFresh src href
        · cases h2
    · intro x hx
      exact hs.refFresh x hx
    · intro _
      rfl
  · rw [onEnded_of_not_live h]
    exact hs

lemma inv_step {s : AppState} (hs : Inv s) (op : Op) : Inv (step s op) := by
  cases op with
  | play item => exact inv_playAudio hs item
  | stop => exact (inv_stopPlayback hs).1
  | ended src => exact inv_onEnded hs src

lemma inv_foldl : ∀ (l : List Op) (s : AppState), Inv s → Inv (l.foldl step s)
  | [], _, h => h
  | op :: l, s, h => inv_foldl l (step s op) (inv_step h op)

lemma inv_exec (ops : List Op) : Inv (exec ops) := inv_foldl ops initState inv_init

lemma exec_append (ops l : List Op) : exec (ops ++ l) = l.foldl step (exec ops) :=
  List.foldl_append step initState ops l

/-- once a source has left the `Playing` set, no later operation ever puts
it back: new sources always get fresh identities. -/
lemma stopped_mono_step {s : AppState} (hs : Inv s) {src : ℕ} (h1 : src < s.nextSrc)
    (h2 : src ∉ live s.trace) (op : Op) :
    src < (step s op).nextSrc ∧ src ∉ live (step s op).trace := by
  cases op with
  | stop =>
      refine ⟨?_, ?_⟩
      · show src < (stopPlayback s).nextSrc
        rw [stopPlayback_nextSrc]
        exact h1
      · show src ∉ live (stopPlayback s).trace
        rw [(inv_stopPlayback hs).2]
        simp
  | ended e =>
      by_cases hl : e ∈ live s.trace
      · rw [show step s (Op.ended e) = onEnded e s from rfl, onEnded_of_live hl]
        refine ⟨h1, ?_⟩
        show src ∉ live (s.trace ++ [Ev.endedFire e])
        rw [live_endedFire]
        intro hx
        exact h2 (List.mem_of_mem_erase hx)
      · rw [show step s (Op.ended e) = onEnded e s from rfl, onEnded_of_not_live hl]
        exact ⟨h1, h2⟩
  | play item =>
      show src < (playAudio item s).nextSrc ∧ src ∉ live (playAudio item s).trace
      by_cases hcond : s.currentAudioId = some item.id ∧ s.isPlaying = true
      · rw [playAudio_of_active hcond, stopPlayback_nextSrc]
        refine ⟨h1, ?_⟩
        rw [(inv_stopPlayback hs).2]
        simp
      · cases hb : item.audioBuffer with
        | none =>
            rw [playAudio_of_noBuffer hb hcond, stopPlayback_nextSrc]
            refine ⟨h1, ?_⟩
            rw [(inv_stopPlayback hs).2]
            simp
        | some b =>
            rw [playAudio_of_start hcond hb]
            refine ⟨?_, ?_⟩
            · show src < (stopPlayback s).nextSrc + 1
              rw [stopPlayback_nextSrc]
              omega
            · show src ∉ live ((stopPlayback s).trace ++
                [Ev.connectCall (stopPlayback s).nextSrc, Ev.startCall (stopPlayback s).nextSrc])
              rw [live_connect_start, (inv_stopPlayback hs).2]
              intro hx
              have h3 : src = (stopPlayback s).nextSrc := by simpa using hx
              rw [stopPlayback_nextSrc] at h3
              omega

lemma stopped_mono_foldl :
    ∀ (l : List Op) (s : AppState), Inv s → ∀ {src : ℕ}, src < s.nextSrc →
      src ∉ live s.trace →
      src < (l.foldl step s).nextSrc ∧ src ∉ live (l.foldl step s).trace
  | [], _, _, _, h1, h2 => ⟨h1, h2⟩
  | op :: l, s, hs, src, h1, h2 => by
      have hst := stopped_mono_step hs h1 h2 op
      exact stopped_mono_foldl l (step s op) (inv_step hs op) hst.1 hst.2

/-! ### Decode / encode round-trip development -/

lemma flatMap_congr_mem {α β : Type} {l : List α} {f g : α → List β}
    (h : ∀ a ∈ l, f a = g a) : l.flatMap f = l.flatMap g := by
  induction l with
  | nil => rfl
  | cons a t ih =>
      rw [List.flatMap_cons, List.flatMap_cons, h a (by simp),
        ih fun x hx => h x (by simp [hx])]

lemma flatMap_map_comp {α β γ : Type} (l : List α) (f : α → β) (g : β → List γ) :
    (l.map f).flatMap g = l.flatMap fun a => g (f a) := by
  simp [List.flatMap_map]

lemma flatMap_flatMap {α β γ : Type} (l : List α) (f : α → List β) (g : β → List γ) :
    (l.flatMap f).flatMap g = l.flatMap fun a => (f a).flatMap g := by
  simp [List.flatMap_assoc]

lemma map_flatMap_comp {α β γ : Type} (l : List α) (f : α → List β) (g : β → γ) :
    (l.flatMap f).map g = l.flatMap fun a => (f a).map g := by
  simp [List.map_flatMap]

lemma decodeOk_ints_length {bytes : List ℕ} {channelCount : ℕ}
    (hdiv : bytes.length % (channelCount * 2) = 0) :
    (bytesToInts bytes).length = (bytes.length / (channelCount * 2)) * channelCount := by
  rw [bytesToInts_length]
  rcases Nat.eq_zero_or_pos channelCount with hch | hch
  · rw [hch] at hdiv ⊢
    simp only [Nat.zero_mul, Nat.mul_zero] at hdiv ⊢
    have h0 : bytes.length = 0 := by simpa using hdiv
    rw [h0]
  · obtain ⟨k, hk⟩ := Nat.dvd_of_mod_eq_zero hdiv
    rw [hk, show channelCount * 2 * k = 2 * (channelCount * k) from by ring,
      Nat.mul_div_cancel_left _ (by omega : 0 < 2),
      show 2 * (channelCount * k) = channelCount * 2 * k from by ring,
      Nat.mul_div_cancel_left _ (by omega : 0 < channelCount * 2)]
    ring

/-- re-encoding a decoded buffer stores, sample for sample, the `scale16`
conversion of the decoded float values, in the original interleaved order. -/
lemma roundtrip_core (bytes : List ℕ) (sampleRate channelCount : ℕ)
    (hdiv : bytes.length % (channelCount * 2) = 0) :
    bytesToInts (wavData (decodeOk bytes sampleRate channelCount)) =
      (bytesToInts bytes).map fun v : ℤ => scale16 ((v : ℚ) / 32768) := by
  have hilen := decodeOk_ints_length hdiv
  have hstep1 : wavData (decodeOk bytes sampleRate channelCount) =
      (List.range (bytes.length / (channelCount * 2))).flatMap fun pos =>
        (List.range channelCount).flatMap fun i =>
          i16le (scale16 (((nthD (bytesToInts bytes) (pos * channelCount + i) 0 : ℤ) : ℚ)
            / 32768)) := by
    unfold wavData decodeOk
    apply flatMap_congr_mem
    intro pos hpos
    apply flatMap_congr_mem
    intro i hi
    rw [nthD_range_map _ _ (List.mem_range.mp hi), nthD_range_map _ _ (List.mem_range.mp hpos)]
  have hS : ((List.range (bytes.length / (channelCount * 2))).flatMap fun pos =>
      (List.range channelCount).map fun i =>
        scale16 (((nthD (bytesToInts bytes) (pos * channelCount + i) 0 : ℤ) : ℚ)
          / 32768)).flatMap i16le =
      wavData (decodeOk bytes sampleRate channelCount) := by
    rw [hstep1, flatMap_flatMap]
    apply flatMap_congr_mem
    intro pos _
    rw [flatMap_map_comp]
  have hSmem : ∀ z ∈ (List.range (bytes.length / (channelCount * 2))).flatMap fun pos =>
      (List.range channelCount).map fun i =>
        scale16 (((nthD (bytesToInts bytes) (pos * channelCount + i) 0 : ℤ) : ℚ) / 32768),
      -32768 ≤ z ∧ z ≤ 32767 := by
    intro z hz
    obtain ⟨pos, _, hz2⟩ := List.mem_flatMap.mp hz
    obtain ⟨i, _, hz3⟩ := List.mem_map.mp hz2
    rw [← hz3]
    exact ⟨scale16_lb _, scale16_ub _⟩
  have h3 : bytesToInts (wavData (decodeOk bytes sampleRate channelCount)) =
      (List.range (bytes.length / (channelCount * 2))).flatMap fun pos =>
        (List.range channelCount).map fun i =>
          scale16 (((nthD (bytesToInts bytes) (pos * channelCount + i) 0 : ℤ) : ℚ) / 32768) := by
    rw [← hS, bytesToInts_flatMap_i16le _ hSmem]
  rw [h3]
  have hT := flatMap_interleave_nthD channelCount (bytes.length / (channelCount * 2))
    (bytesToInts bytes) hilen
  calc ((List.range (bytes.length / (channelCount * 2))).flatMap fun pos =>
        (List.range channelCount).map fun i =>
          scale16 (((nthD (bytesToInts bytes) (pos * channelCount + i) 0 : ℤ) : ℚ) / 32768)) =
      ((List.range (bytes.length / (channelCount * 2))).flatMap fun pos =>
        (List.range channelCount).map fun i =>
          nthD (bytesToInts bytes) (pos * channelCount + i) 0).map
        (fun v : ℤ => scale16 ((v : ℚ) / 32768)) := by
        rw [map_flatMap_comp]
        apply flatMap_congr_mem
        intro pos _
        rw [List.map_map]
        apply List.map_congr_left
        intro i _
        rfl
    _ = (bytesToInts bytes).map fun v : ℤ => scale16 ((v : ℚ) / 32768) := by rw [hT]

/-! ## Claim theorems -/

/-- C9 (code bug exhibit): when `isPlaying` is false but the audio context
is in the normal `running` state, the `draw` callback still requests the
next animation frame — the visualization tick loop keeps running while
playback is inactive, contradicting the cancellation requirement (and the
code's own comment "simple stop is fine").  It stops only when the context
is `closed` or `suspended`. -/
theorem draw_keeps_scheduling_while_inactive :
    drawSchedulesNext false CtxState.running = true ∧
    drawSchedulesNext false CtxState.closed = false ∧
    drawSchedulesNext false CtxState.suspended = false := by
  decide

/-- C10 (counterexample): playing a record whose buffer is null is not a
silent no-op: `playAudio` calls `stopPlayback()` before the null check, so
when another item is playing, the call stops it and changes the state. -/
theorem play_null_buffer_not_silent_noop :
    itemNull.audioBuffer = none ∧
    (exec [Op.play itemA]).isPlaying = true ∧
    (playAudio itemNull (exec [Op.play itemA])).isPlaying = false ∧
    playAudio itemNull (exec [Op.play itemA]) ≠ exec [Op.play itemA] := by
  refine ⟨rfl, by decide, by decide, by decide⟩

/-- C10 (amended): for a record with a null buffer, `playAudio` behaves
exactly like `stopPlayback` — it stops any current playback but creates no
source node and raises no error — and the WAV export produces no bytes. -/
theorem play_null_buffer_stops_and_exports_nothing (item : GeneratedAudio) (s : AppState)
    (h : item.audioBuffer = none) :
    playAudio item s = stopPlayback s ∧ handleDownload item = none := by
  constructor
  · by_cases hcond : s.currentAudioId = some item.id ∧ s.isPlaying = true
    · exact playAudio_of_active hcond
    · exact playAudio_of_noBuffer h hcond
  · unfold handleDownload
    rw [h]

/-- C10 (witness): the amended claim evaluated on the null-buffer record in
the initial state. -/
theorem play_null_buffer_stops_and_exports_nothing_witness :
    playAudio itemNull initState = stopPlayback initState ∧ handleDownload itemNull = none :=
  play_null_buffer_stops_and_exports_nothing itemNull initState rfl

/-- C3 (counterexample): the WAV export of a zero-sample buffer does not
fail — `handleDownload` has no empty-buffer check and emits the 44-byte
header-only file. -/
theorem encode_empty_emits_header_only :
    handleDownload ⟨"idE", "", VoiceName.Kore, 0, some ⟨1, 0, 24000, [[]]⟩, 0⟩ =
      some (encodeWav ⟨1, 0, 24000, [[]]⟩) ∧
    (encodeWav ⟨1, 0, 24000, [[]]⟩).length = 44 := ⟨rfl, rfl⟩

/-- C3 (amended): on every buffer with zero samples per channel, the export
succeeds and produces exactly the 44 header bytes: a header-only file whose
data-chunk length field is 0 and whose RIFF length field is 36. -/
theorem encodeWav_empty_header_only (g : GeneratedAudio) (b : AudioBuffer)
    (hb : g.audioBuffer = some b) (h0 : b.length = 0) :
    handleDownload g = some (encodeWav b) ∧
    (encodeWav b).length = 44 ∧
    readU32 (encodeWav b) 40 = 0 ∧
    readU32 (encodeWav b) 4 = 36 := by
  refine ⟨?_, ?_, ?_, ?_⟩
  · unfold handleDownload
    rw [hb]
  · rw [encodeWav_length, h0]
    omega
  · rw [readU32_encodeWav_40, h0]
    omega
  · rw [readU32_encodeWav_4, h0]
    omega

/-- C3 (witness): the amended claim evaluated on a concrete empty
two-channel buffer. -/
theorem encodeWav_empty_header_only_witness :
    handleDownload ⟨"idE2", "x", VoiceName.Puck, 0, some ⟨2, 0, 8000, [[], []]⟩, 0⟩ =
      some (encodeWav ⟨2, 0, 8000, [[], []]⟩) ∧
    (encodeWav ⟨2, 0, 8000, [[], []]⟩).length = 44 ∧
    readU32 (encodeWav ⟨2, 0, 8000, [[], []]⟩) 40 = 0 ∧
    readU32 (encodeWav ⟨2, 0, 8000, [[], []]⟩) 4 = 36 :=
  encodeWav_empty_header_only _ _ rfl rfl

/-- C4: at most one playback session is in the `Playing` state at every
instant of every `play` / `stop` / `ended` call sequence — stated over all
prefixes of the audio-node call trace, so it also covers the instants
inside a call.  In the `start(A); start(B)` scenario the full trace shows
A's source is stopped and disconnected (positions 2-3) strictly before B's
source is connected and started (positions 4-5), and exactly B's session
(source 1) remains playing. -/
theorem at_most_one_playing :
    (∀ ops p, p <+: (exec ops).trace → (live p).length ≤ 1) ∧
    (exec [Op.play itemA, Op.play itemB]).trace =
      [Ev.connectCall 0, Ev.startCall 0, Ev.stopCall 0, Ev.disconnectCall 0,
       Ev.connectCall 1, Ev.startCall 1] ∧
    live (exec [Op.play itemA, Op.play itemB]).trace = [1] ∧
    (exec [Op.play itemA, Op.play itemB]).sourceNodeRef = some 1 ∧
    (exec [Op.play itemA, Op.play itemB]).currentAudioId = some itemB.id ∧
    (exec [Op.play itemA, Op.play itemB]).isPlaying = true := by
  refine ⟨fun ops p hp => (inv_exec ops).prefOK p hp, ?_, ?_, ?_, ?_, ?_⟩ <;> decide

/-- C4 (witness): the prefix bound evaluated on a concrete one-call
sequence and a concrete strict prefix of its trace. -/
theorem at_most_one_playing_witness : (live [Ev.connectCall 0]).length ≤ 1 :=
  at_most_one_playing.1 [Op.play itemA] [Ev.connectCall 0] (by decide)

/-- C7 (counterexample): toggling the same handle twice does not return the
system to the original play/stop state when a different item was playing:
starting from A playing, `toggle(B); toggle(B)` ends with nothing playing. -/
theorem toggle_twice_with_other_active_not_restored :
    (exec [Op.play itemA]).isPlaying = true ∧
    (exec [Op.play itemA]).currentAudioId = some itemA.id ∧
    (playAudio itemB (playAudio itemB (exec [Op.play itemA]))).isPlaying = false ∧
    (playAudio itemB (playAudio itemB (exec [Op.play itemA]))).currentAudioId = none := by
  refine ⟨?_, ?_, ?_, ?_⟩ <;> decide

/-- C7 (amended): toggle stops when the handle is the active playing item
and otherwise stops any current session and starts the handle's (when its
buffer is non-null); toggling twice in succession restores the original
play/stop state provided no different item's session was active initially
(if one was, the double toggle leaves the system stopped). -/
theorem toggle_semantics_amended :
    (∀ ops item, (exec ops).currentAudioId = some (GeneratedAudio.id item) ∧
        (exec ops).isPlaying = true →
        (playAudio item (exec ops)).isPlaying = false ∧
        (playAudio item (exec ops)).currentAudioId = none) ∧
    (∀ ops item b, ¬ ((exec ops).currentAudioId = some (GeneratedAudio.id item) ∧
          (exec ops).isPlaying = true) →
        GeneratedAudio.audioBuffer item = some b →
        (playAudio item (exec ops)).isPlaying = true ∧
        (playAudio item (exec ops)).currentAudioId = some (GeneratedAudio.id item)) ∧
    (∀ ops item, ((exec ops).isPlaying = true →
          (exec ops).currentAudioId = some (GeneratedAudio.id item) ∧
          (GeneratedAudio.audioBuffer item).isSome = true) →
        (playAudio item (playAudio item (exec ops))).isPlaying = (exec ops).isPlaying ∧
        (playAudio item (playAudio item (exec ops))).currentAudioId =
          (exec ops).currentAudioId) := by
  refine ⟨?_, ?_, ?_⟩
  · intro ops item h
    rw [playAudio_of_active h]
    exact ⟨stopPlayback_isPlaying _, stopPlayback_currentAudioId _⟩
  · intro ops item b hcond hb
    rw [playAudio_of_start hcond hb]
    exact ⟨rfl, rfl⟩
  · intro ops item h
    cases hp : (exec ops).isPlaying with
    | true =>
        obtain ⟨hcur, hbuf⟩ := h hp
        obtain ⟨b, hb⟩ := Option.isSome_iff_exists.mp hbuf
        rw [playAudio_of_active ⟨hcur, hp⟩]
        have hcond2 : ¬ ((stopPlayback (exec ops)).currentAudioId =
            some (GeneratedAudio.id item) ∧ (stopPlayback (exec ops)).isPlaying = true) := by
          rw [stopPlayback_currentAudioId]
          rintro ⟨hx, -⟩
          cases hx
        rw [playAudio_of_start hcond2 hb]
        exact ⟨rfl, hcur.symm⟩
    | false =>
        have hidle := (inv_exec ops).idle hp
        have hcond1 : ¬ ((exec ops).currentAudioId = some (GeneratedAudio.id item) ∧
            (exec ops).isPlaying = true) := by
          rintro ⟨-, hx⟩
          rw [hp] at hx
          cases hx
        cases hb : GeneratedAudio.audioBuffer item with
        | none =>
            rw [playAudio_of_noBuffer hb hcond1]
            have hcond2 : ¬ ((stopPlayback (exec ops)).currentAudioId =
                some (GeneratedAudio.id item) ∧ (stopPlayback (exec ops)).isPlaying = true) := by
              rw [stopPlayback_isPlaying]
              rintro ⟨-, hx⟩
              cases hx
            rw [playAudio_of_noBuffer hb hcond2, stopPlayback_isPlaying,
              stopPlayback_currentAudioId, hidle]
            exact ⟨rfl, rfl⟩
        | some b =>
            rw [playAudio_of_start hcond1 hb]
            rw [playAudio_of_active ⟨rfl, rfl⟩, stopPlayback_isPlaying,
              stopPlayback_currentAudioId, hidle]
            exact ⟨rfl, rfl⟩

/-- C7 (witness): the amended toggle semantics evaluated on concrete call
sequences: toggling the currently playing item stops it, and a double
toggle from the idle initial state restores the idle state. -/
theorem toggle_semantics_amended_witness :
    ((playAudio itemA (exec [Op.play itemA])).isPlaying = false ∧
      (playAudio itemA (exec [Op.play itemA])).currentAudioId = none) ∧
    ((playAudio itemB (playAudio itemB (exec []))).isPlaying = (exec []).isPlaying ∧
      (playAudio itemB (playAudio itemB (exec []))).currentAudioId =
        (exec []).currentAudioId) :=
  ⟨toggle_semantics_amended.1 [Op.play itemA] itemA (by decide),
   toggle_semantics_amended.2.2 [] itemB (by decide)⟩

/-- C8: natural end-of-stream of the playing source (the registered
`onended` callback) moves the session out of `Playing`, clears `isPlaying`
and the now-playing reference; a session that left `Playing` never returns
to it under any later operations (Stopped is terminal); and a start call in
any reachable state creates a session with a source identity that never
appeared in the trace before (a new session, never a resurrected one). -/
theorem onended_stops_session_terminally :
    (∀ ops src, src ∈ live (exec ops).trace →
        (onEnded src (exec ops)).isPlaying = false ∧
        (onEnded src (exec ops)).currentAudioId = none ∧
        src ∉ live (onEnded src (exec ops)).trace) ∧
    (∀ ops more src, src < (exec ops).nextSrc → src ∉ live (exec ops).trace →
        src ∉ live (exec (ops ++ more)).trace) ∧
    (∀ ops item b, GeneratedAudio.audioBuffer item = some b →
        ¬ ((exec ops).currentAudioId = some (GeneratedAudio.id item) ∧
          (exec ops).isPlaying = true) →
        (exec (ops ++ [Op.play item])).sourceNodeRef = some (exec ops).nextSrc ∧
        ∀ e ∈ (exec ops).trace, evSrc e ≠ (exec ops).nextSrc) := by
  refine ⟨?_, ?_, ?_⟩
  · intro ops src hsrc
    rw [onEnded_of_live hsrc]
    have hs := inv_exec ops
    refine ⟨rfl, rfl, ?_⟩
    show src ∉ live ((exec ops).trace ++ [Ev.endedFire src])
    rw [live_endedFire]
    rcases length_le_one_cases (live_len_le_one hs) with h0 | ⟨x, hx⟩
    · rw [h0] at hsrc
      cases hsrc
    · rw [hx] at hsrc ⊢
      have hxs : src = x := by simpa using hsrc
      subst hxs
      rw [List.erase_cons_head]
      simp
  · intro ops more src h1 h2
    rw [exec_append]
    exact (stopped_mono_foldl more (exec ops) (inv_exec ops) h1 h2).2
  · intro ops item b hb hcond
    constructor
    · rw [exec_append]
      show (playAudio item (exec ops)).sourceNodeRef = some (exec ops).nextSrc
      rw [playAudio_of_start hcond hb]
      show some (stopPlayback (exec ops)).nextSrc = some (exec ops).nextSrc
      rw [stopPlayback_nextSrc]
    · intro e he
      have := (inv_exec ops).fresh e he
      omega

/-- C8 (witness): the completion and terminality properties evaluated on
concrete call sequences. -/
theorem onended_stops_session_terminally_witness :
    ((onEnded 0 (exec [Op.play itemA])).isPlaying = false ∧
      (onEnded 0 (exec [Op.play itemA])).currentAudioId = none ∧
      0 ∉ live (onEnded 0 (exec [Op.play itemA])).trace) ∧
    0 ∉ live (exec ([Op.play itemA, Op.stop] ++ [Op.play itemB])).trace :=
  ⟨onended_stops_session_terminally.1 [Op.play itemA] 0 (by decide),
   onended_stops_session_terminally.2.1 [Op.play itemA, Op.stop] [Op.play itemB] 0
     (by decide) (by decide)⟩

/-- C1 (counterexample): the claim that every negative sample is scaled by
32768 fails at sample value `-1/4` (mono buffer): the stored 16-bit value
is `-8191` — the code scaled by 32767 because its branch condition
`0.5 + sample < 0` tests `sample < -0.5`, not `sample < 0` — while the
claim demands `trunc(-1/4 * 32768) = -8192`. -/
theorem encode_neg_quarter_not_scaled_32768 :
    readI16 (encodeWav ⟨1, 1, 24000, [[-(1 / 4)]]⟩) 44 = -8191 ∧
    truncQ (clampSample (-(1 / 4)) * 32768) = -8192 ∧
    readI16 (encodeWav ⟨1, 1, 24000, [[-(1 / 4)]]⟩) 44 ≠
      truncQ (clampSample (-(1 / 4)) * 32768) := by
  have hdrop : (encodeWav ⟨1, 1, 24000, [[-(1 / 4)]]⟩).drop 44 =
      i16le (scale16 (-(1 / 4))) := rfl
  have h1 : readI16 (encodeWav ⟨1, 1, 24000, [[-(1 / 4)]]⟩) 44 = scale16 (-(1 / 4)) :=
    readI16_of_drop hdrop (scale16_lb _) (scale16_ub _)
  have h2 : truncQ (clampSample (-(1 / 4)) * 32768) = -8192 := by
    rw [clampSample_eq_self (by norm_num) (by norm_num),
      show (-(1 / 4) : ℚ) * 32768 = ((-8192 : ℤ) : ℚ) from by norm_num, truncQ_intCast]
  refine ⟨?_, h2, ?_⟩
  · rw [h1, scale16_negQuarter]
  · rw [h1, scale16_negQuarter, h2]
    decide

/-- C1 (amended): the stored 16-bit value of every exported sample `s` is
obtained by clamping `s` to `[-1, 1]` and then scaling by 32768 when the
clamped value is below `-1/2` and by 32767 otherwise (the code's condition
`0.5 + sample < 0` branches at `-1/2`, not at `0`), truncated toward zero;
stated against the bytes the encoder actually writes for a mono buffer. -/
theorem encode_scale_branch_at_neg_half (s : ℚ) (r : ℕ) :
    readI16 (encodeWav ⟨1, 1, r, [[s]]⟩) 44 =
      if clampSample s < -(1 / 2) then truncQ (clampSample s * 32768)
      else truncQ (clampSample s * 32767) := by
  have hdrop : (encodeWav ⟨1, 1, r, [[s]]⟩).drop 44 = i16le (scale16 s) := rfl
  rw [readI16_of_drop hdrop (scale16_lb s) (scale16_ub s), (scale16_eq_truncQ s).1]
  by_cases hcond : clampSample s < -(1 / 2)
  · rw [if_pos (by linarith : 1 / 2 + clampSample s < 0), if_pos hcond]
  · have hcond2 : ¬ (1 / 2 + clampSample s < 0) := by
      push_neg at hcond ⊢
      linarith
    rw [if_neg hcond2, if_neg hcond]

/-- C2: layout of the encoded WAV container: total byte length
`44 + sampleCount * channelCount * 2`; the little-endian RIFF length field
at offset 4 equals total − 8; the data-chunk length field at offset 40
equals `sampleCount * channelCount * 2`; the fmt chunk declares byte rate
`sampleRate * channelCount * 2` (offset 28), block align
`channelCount * 2` (offset 32) and 16 bits per sample (offset 34).  The
2-channel, 4-samples-per-channel all-zero buffer encodes to a 60-byte file
whose data chunk is 16 zero bytes and whose byte rate field reads
`sampleRate * 4`. -/
theorem encodeWav_format (b : AudioBuffer) (hwf : b.WF)
    (hch : b.numberOfChannels < 32768)
    (hlen : b.length * b.numberOfChannels * 2 + 44 < 4294967296)
    (hrate : b.sampleRate * b.numberOfChannels * 2 < 4294967296) :
    (encodeWav b).length = 44 + b.length * b.numberOfChannels * 2 ∧
    readU32 (encodeWav b) 4 = (encodeWav b).length - 8 ∧
    readU32 (encodeWav b) 40 = b.length * b.numberOfChannels * 2 ∧
    readU32 (encodeWav b) 28 = b.sampleRate * b.numberOfChannels * 2 ∧
    readU16 (encodeWav b) 32 = b.numberOfChannels * 2 ∧
    readU16 (encodeWav b) 34 = 16 ∧
    (encodeWav ⟨2, 4, 24000, [[0, 0, 0, 0], [0, 0, 0, 0]]⟩).length = 60 ∧
    (encodeWav ⟨2, 4, 24000, [[0, 0, 0, 0], [0, 0, 0, 0]]⟩).drop 44 =
      List.replicate 16 0 ∧
    readU32 (encodeWav ⟨2, 4, 24000, [[0, 0, 0, 0], [0, 0, 0, 0]]⟩) 28 = 24000 * 4 := by
  have hmr : b.sampleRate * 2 * b.numberOfChannels =
      b.sampleRate * b.numberOfChannels * 2 := by ring
  have hz24 : (encodeWav ⟨2, 4, 24000, [[0, 0, 0, 0], [0, 0, 0, 0]]⟩).drop 44 =
      i16le (scale16 0) ++ i16le (scale16 0) ++ i16le (scale16 0) ++ i16le (scale16 0) ++
      i16le (scale16 0) ++ i16le (scale16 0) ++ i16le (scale16 0) ++ i16le (scale16 0) := rfl
  refine ⟨encodeWav_length b, ?_, ?_, ?_, ?_, ?_, ?_, ?_, ?_⟩
  · rw [readU32_encodeWav_4, encodeWav_length]
    omega
  · rw [readU32_encodeWav_40]
    omega
  · rw [readU32_encodeWav_28, hmr]
    omega
  · rw [readU16_encodeWav_32]
    omega
  · exact readU16_encodeWav_34 b
  · rfl
  · rw [hz24, scale16_zero]
    decide
  · rfl

/-- C2 (witness): the format theorem evaluated on the concrete all-zero
2-channel, 4-frame buffer. -/
theorem encodeWav_format_witness :
    (encodeWav ⟨2, 4, 24000, [[0, 0, 0, 0], [0, 0, 0, 0]]⟩).length = 44 + 4 * 2 * 2 :=
  (encodeWav_format ⟨2, 4, 24000, [[0, 0, 0, 0], [0, 0, 0, 0]]⟩ ⟨rfl, by simp⟩ (by decide)
    (by decide) (by decide)).1

/-- C5: the modelled decoder fails with `MalformedAudioData` exactly on
byte sequences whose length is not divisible by `channelCount * 2`, and on
divisible lengths it succeeds with a well-formed buffer holding
`length / (channelCount * 2)` samples per channel — it never partially
decodes. -/
theorem decode_fails_iff_indivisible (bytes : List ℕ) (sampleRate channelCount : ℕ) :
    (¬ (channelCount * 2) ∣ bytes.length →
      decodeAudioData bytes sampleRate channelCount =
        Except.error DecodeError.MalformedAudioData) ∧
    ((channelCount * 2) ∣ bytes.length →
      decodeAudioData bytes sampleRate channelCount =
        Except.ok (decodeOk bytes sampleRate channelCount) ∧
      (decodeOk bytes sampleRate channelCount).WF ∧
      (decodeOk bytes sampleRate channelCount).length =
        bytes.length / (channelCount * 2)) := by
  constructor
  · intro h
    unfold decodeAudioData
    rw [if_neg fun hmod => h (Nat.dvd_of_mod_eq_zero hmod)]
  · intro h
    have hmod : bytes.length % (channelCount * 2) = 0 := Nat.mod_eq_zero_of_dvd h
    refine ⟨?_, ⟨?_, ?_⟩, rfl⟩
    · unfold decodeAudioData
      rw [if_pos hmod]
    · simp [decodeOk]
    · intro chl hchl
      simp only [decodeOk] at hchl
      obtain ⟨c, -, hc⟩ := List.mem_map.mp hchl
      rw [← hc]
      simp [decodeOk]

/-- C5 (witness): the decoder contract evaluated on a 3-byte mono input
(failure) and a 2-byte mono input (success). -/
theorem decode_fails_iff_indivisible_witness :
    decodeAudioData [0, 0, 0] 24000 1 = Except.error DecodeError.MalformedAudioData ∧
    (decodeAudioData [0, 0] 24000 1 = Except.ok (decodeOk [0, 0] 24000 1) ∧
      (decodeOk [0, 0] 24000 1).WF ∧
      (decodeOk [0, 0] 24000 1).length = [0, 0].length / (1 * 2)) :=
  ⟨(decode_fails_iff_indivisible [0, 0, 0] 24000 1).1 (by decide),
   (decode_fails_iff_indivisible [0, 0] 24000 1).2 (by decide)⟩

/-- C6: decoding a valid PCM byte sequence and re-encoding it stores, for
every sample, a 16-bit value within one quantization step of the original
stored value; and a mono buffer holding the float value `1.0` encodes to
the stored value `32767` while `-1.0` encodes to `-32768`. -/
theorem decode_encode_roundtrip :
    (∀ bytes sampleRate channelCount, (∀ byte ∈ bytes, byte < 256) →
        bytes.length % (channelCount * 2) = 0 →
        decodeAudioData bytes sampleRate channelCount =
          Except.ok (decodeOk bytes sampleRate channelCount) ∧
        List.Forall₂ (fun v w : ℤ => (w - v).natAbs ≤ 1) (bytesToInts bytes)
          (bytesToInts (wavData (decodeOk bytes sampleRate channelCount)))) ∧
    (∀ r, readI16 (encodeWav ⟨1, 1, r, [[1]]⟩) 44 = 32767) ∧
    (∀ r, readI16 (encodeWav ⟨1, 1, r, [[-1]]⟩) 44 = -32768) := by
  refine ⟨?_, ?_, ?_⟩
  · intro bytes sampleRate channelCount hbytes hdiv
    constructor
    · unfold decodeAudioData
      rw [if_pos hdiv]
    · rw [roundtrip_core bytes sampleRate channelCount hdiv, List.forall₂_map_right_iff,
        List.forall₂_same]
      intro v hv
      exact scale16_roundtrip (bytesToInts_range bytes hbytes v hv).1
        (bytesToInts_range bytes hbytes v hv).2
  · intro r
    have hdrop : (encodeWav ⟨1, 1, r, [[1]]⟩).drop 44 = i16le (scale16 1) := rfl
    rw [readI16_of_drop hdrop (scale16_lb 1) (scale16_ub 1), scale16_one]
  · intro r
    have hdrop : (encodeWav ⟨1, 1, r, [[-1]]⟩).drop 44 = i16le (scale16 (-1)) := rfl
    rw [readI16_of_drop hdrop (scale16_lb _) (scale16_ub _), scale16_negOne]

/-- C6 (witness): the round-trip bound evaluated on the 2-byte mono input
holding the stored value `-32768`, plus the `1.0` scenario at 24 kHz. -/
theorem decode_encode_roundtrip_witness :
    (decodeAudioData [0, 128] 24000 1 = Except.ok (decodeOk [0, 128] 24000 1) ∧
      List.Forall₂ (fun v w : ℤ => (w - v).natAbs ≤ 1) (bytesToInts [0, 128])
        (bytesToInts (wavData (decodeOk [0, 128] 24000 1)))) ∧
    readI16 (encodeWav ⟨1, 1, 24000, [[1]]⟩) 44 = 32767 :=
  ⟨decode_encode_roundtrip.1 [0, 128] 24000 1 (by decide) (by decide),
   decode_encode_roundtrip.2.1 24000⟩

end GeminiVoiceStudio
